import Mathlib

/-!
Verification of the negative-invoice matching core.

This file gives a shallow embedding, in Lean 4, of the core of the
negative-invoice matching system (`core/matching_engine.py`,
`core/db_manager.py`, `config/config.py`) and proves or refutes the
behavioural claims made about it.

Modelling conventions:
* Python `Decimal` amounts are modelled as `ℚ` (exact decimal arithmetic).
* Python lists are Lean `List`s; Python dicts are modelled by
  insertion-ordered association lists, which is the observable behaviour of
  Python 3.7+ dicts.
* Python's stable `sorted`/`list.sort` is modelled by a stable insertion
  sort (`sortedBy`); only stability and the key functions matter here.
* The mutable database is modelled by explicit state passing: a table of
  `(line_id, remaining)` rows for the credit lines and an append-only list
  of audit rows for `match_records`.
-/

namespace NegMatch
/-- Failure reason `FailureReasons.NO_CANDIDATES` of `matching_engine.py`. -/
def NO_CANDIDATES : String := "no_candidates"

/-- Failure reason `FailureReasons.INSUFFICIENT_TOTAL_AMOUNT`. -/
def INSUFFICIENT_TOTAL_AMOUNT : String := "insufficient_total_amount"

/-- Sort strategy name used by the engine (largest demand first). -/
def AMOUNT_DESC : String := "amount_desc"

/-- Sort strategy name: smallest demand first. -/
def AMOUNT_ASC : String := "amount_asc"

/-- Sort strategy name: by priority, then amount, descending. -/
def PRIORITY_DESC : String := "priority_desc"

/-- `DYNAMIC_LIMIT_BASE` from `config/config.py`: base candidate count per
negative invoice for the dynamically sized batch-fetch cap. -/
def DYNAMIC_LIMIT_BASE : Nat := 200

/-- `DYNAMIC_LIMIT_MAX` from `config/config.py`: maximum candidate count per
condition for the dynamically sized batch-fetch cap. -/
def DYNAMIC_LIMIT_MAX : Nat := 2000

/-- Grouping key `(tax_rate, buyer_id, seller_id)`. -/
abbrev GroupKey := Int × Nat × Nat

/-- Data model `BlueLineItem` of `matching_engine.py`: a credit line with a
remaining consumable balance. -/
structure BlueLineItem where
  line_id : Nat
  remaining : ℚ
  tax_rate : Int
  buyer_id : Nat
  seller_id : Nat
deriving DecidableEq

/-- Data model `NegativeInvoice` of `matching_engine.py`: a demand. -/
structure NegativeInvoice where
  invoice_id : Nat
  amount : ℚ
  tax_rate : Int
  buyer_id : Nat
  seller_id : Nat
  priority : Int := 0
deriving DecidableEq

/-- Data model `MatchAllocation` of `matching_engine.py`. -/
structure MatchAllocation where
  blue_line_id : Nat
  amount_used : ℚ
  remaining_after : ℚ
deriving DecidableEq

/-- Data model `MatchResult` of `matching_engine.py`.  The purely diagnostic
fields `failure_detail` and `match_attempts` (prose descriptions and
suggested actions rebuilt deterministically from the other fields) are not
modelled. -/
structure MatchResult where
  negative_invoice_id : Nat
  success : Bool
  allocations : List MatchAllocation
  total_matched : ℚ
  fragments_created : Nat
  failure_reason : Option String := none
deriving DecidableEq

/-- Grouping key of a `NegativeInvoice`. -/
def negKey (n : NegativeInvoice) : GroupKey := (n.tax_rate, n.buyer_id, n.seller_id)

/-- Grouping key of a `BlueLineItem` (used by the SQL row regrouping). -/
def blueKey (c : BlueLineItem) : GroupKey := (c.tax_rate, c.buyer_id, c.seller_id)

/-- Fragment counting step of `match_single`: line 181 of
`matching_engine.py` increments the counter when
`0 < remaining_after < fragment_threshold`. -/
def fragIncr (fragment_threshold remaining_after : ℚ) : Nat :=
  if 0 < remaining_after ∧ remaining_after < fragment_threshold then 1 else 0

/-- The greedy allocation loop of `match_single`
(`matching_engine.py` lines 152-187).  The loop state is
`(need, allocations, fragments_created)`; the loop walks the candidate list
in the order given, breaks as soon as `need ≤ 0.01`, takes
`use_amount = min need remaining` from the current candidate, records the
allocation, counts a fragment when the leftover lies strictly between `0`
and the threshold, and decrements `need`. -/
def greedyLoop (fragment_threshold : ℚ) :
    ℚ → List MatchAllocation → Nat → List BlueLineItem → ℚ × List MatchAllocation × Nat
  | need, allocations, fragments, [] => (need, allocations, fragments)
  | need, allocations, fragments, blue_line :: rest =>
    if need ≤ 1/100 then (need, allocations, fragments)
    else
      greedyLoop fragment_threshold (need - min need blue_line.remaining)
        (allocations ++ [⟨blue_line.line_id, min need blue_line.remaining,
          blue_line.remaining - min need blue_line.remaining⟩])
        (fragments + fragIncr fragment_threshold
          (blue_line.remaining - min need blue_line.remaining)) rest

/-- `GreedyMatchingEngine.match_single` (`matching_engine.py` lines 92-230).
An empty candidate list fails immediately with `NO_CANDIDATES`; otherwise
the greedy loop runs, success is `need ≤ 0.01` afterwards, a failure
discards the computed allocations and reports `INSUFFICIENT_TOTAL_AMOUNT`,
and a success returns the allocations, `total_matched = amount - need` and
the fragment count. -/
def match_single (fragment_threshold : ℚ) (negative : NegativeInvoice)
    (candidates : List BlueLineItem) : MatchResult :=
  if candidates.isEmpty then
    { negative_invoice_id := negative.invoice_id, success := false, allocations := [],
      total_matched := 0, fragments_created := 0, failure_reason := some NO_CANDIDATES }
  else
    let r := greedyLoop fragment_threshold negative.amount [] 0 candidates
    if r.1 ≤ 1/100 then
      { negative_invoice_id := negative.invoice_id, success := true, allocations := r.2.1,
        total_matched := negative.amount - r.1, fragments_created := r.2.2,
        failure_reason := none }
    else
      { negative_invoice_id := negative.invoice_id, success := false, allocations := [],
        total_matched := 0, fragments_created := 0,
        failure_reason := some INSUFFICIENT_TOTAL_AMOUNT }

/-- Stable insertion step for a strict comparison `lt`: walk past every
element `b` with `lt b a` and stop at the first `b` with `¬ lt b a`, so an
element inserted later (i.e. one occurring *earlier* in the original list,
since `sortedBy` folds from the right) lands before elements with equal
keys.  Together with `sortedBy` this models Python's stable
`sorted`/`list.sort`. -/
def insertSorted {α : Type} (lt : α → α → Bool) (a : α) : List α → List α
  | [] => [a]
  | b :: l => if lt b a then b :: insertSorted lt a l else a :: b :: l

/-- Stable ascending sort by a strict boolean comparison, modelling
Python's `sorted`. -/
def sortedBy {α : Type} (lt : α → α → Bool) (l : List α) : List α :=
  l.foldr (insertSorted lt) []

/-- Candidate order used inside `_match_group`: ascending by `remaining`
(`available_candidates.sort(key=lambda x: x.remaining)`). -/
def byRemaining (a b : BlueLineItem) : Bool := a.remaining < b.remaining

/-- `GreedyMatchingEngine._get_sort_key` (`matching_engine.py` lines
464-473).  Python returns a scalar for the amount strategies and a pair for
`priority_desc`; since only comparisons within one strategy matter, the
scalar keys are padded to pairs compared lexicographically. -/
def get_sort_key (negative : NegativeInvoice) (strategy : String) : ℚ × ℚ :=
  if strategy = AMOUNT_DESC then (-negative.amount, 0)
  else if strategy = AMOUNT_ASC then (negative.amount, 0)
  else if strategy = PRIORITY_DESC then (-(negative.priority : ℚ), -negative.amount)
  else (0, 0)

/-- Strict lexicographic comparison of sort keys (Python tuple/scalar
`<`). -/
def keyLt (p q : ℚ × ℚ) : Bool := p.1 < q.1 ∨ (p.1 = q.1 ∧ p.2 < q.2)

/-- Comparison of two indexed demands by sort key, as used by
`sorted(group_negatives, key=lambda x: self._get_sort_key(x[1], sort_strategy))`. -/
def groupLt (strategy : String) (a b : Nat × NegativeInvoice) : Bool :=
  keyLt (get_sort_key a.2 strategy) (get_sort_key b.2 strategy)

/-- Construction of the per-group mutable snapshot
`local_candidates = {c.line_id: copy.deepcopy(c) for c in candidates}`
(`matching_engine.py` line 436): a Python dict comprehension keyed by
`line_id`, so a duplicated id keeps its first insertion position but the
last value. -/
def dedupStep (acc : List BlueLineItem) (c : BlueLineItem) : List BlueLineItem :=
  if acc.any (fun x => x.line_id = c.line_id)
  then acc.map (fun x => if x.line_id = c.line_id then c else x)
  else acc ++ [c]

/-- The snapshot as an insertion-ordered association list. -/
def dedupByLineId (candidates : List BlueLineItem) : List BlueLineItem :=
  candidates.foldl dedupStep []

/-- Application of a successful result's allocations to the local snapshot
(`matching_engine.py` lines 453-456): each allocation overwrites the
`remaining` of the snapshot entry with its id by `remaining_after`. -/
def applyAllocs (local_candidates : List BlueLineItem)
    (allocations : List MatchAllocation) : List BlueLineItem :=
  allocations.foldl
    (fun snap alloc =>
      snap.map (fun c =>
        if c.line_id = alloc.blue_line_id
        then { c with remaining := alloc.remaining_after } else c))
    local_candidates

/-- The per-demand loop of `_match_group` (`matching_engine.py` lines
438-462): filter the snapshot to `remaining > 0.01`, sort ascending by
remaining, run `match_single`, and on success write the allocations back
into the snapshot before the next demand. -/
def matchGroupLoop (t : ℚ) :
    List (Nat × NegativeInvoice) → List BlueLineItem → List MatchResult
  | [], _ => []
  | p :: rest, local_candidates =>
    let available_candidates :=
      sortedBy byRemaining
        (local_candidates.filter (fun c => (1:ℚ)/100 < c.remaining))
    let result := match_single t p.2 available_candidates
    result ::
      matchGroupLoop t rest
        (if result.success then applyAllocs local_candidates result.allocations
         else local_candidates)

/-- `GreedyMatchingEngine._match_group` (`matching_engine.py` lines
422-462): sort the group's demands by the strategy key, build the local
snapshot, and run the per-demand loop.  The results are returned in
**sorted** order, as in the source. -/
def match_group (t : ℚ) (group_negatives : List (Nat × NegativeInvoice))
    (candidates : List BlueLineItem) (sort_strategy : String) : List MatchResult :=
  matchGroupLoop t (sortedBy (groupLt sort_strategy) group_negatives)
    (dedupByLineId candidates)

/-- State-threaded form of the greedy loop, mirroring the fact that the
Python loop body of `match_single` only reads `blue_line.line_id` and
`blue_line.remaining` and builds fresh `MatchAllocation` objects — it
performs no assignment to the candidate store, which is therefore returned
as it was traversed. -/
def greedyLoopSt (t : ℚ) :
    ℚ → List MatchAllocation → Nat → List BlueLineItem →
      (ℚ × List MatchAllocation × Nat) × List BlueLineItem
  | need, allocations, fragments, [] => ((need, allocations, fragments), [])
  | need, allocations, fragments, blue_line :: rest =>
    if need ≤ 1/100 then ((need, allocations, fragments), blue_line :: rest)
    else
      let step := greedyLoopSt t (need - min need blue_line.remaining)
        (allocations ++ [⟨blue_line.line_id, min need blue_line.remaining,
          blue_line.remaining - min need blue_line.remaining⟩])
        (fragments + fragIncr t (blue_line.remaining - min need blue_line.remaining)) rest
      (step.1, blue_line :: step.2)

/-- State-threaded form of `match_single`: the pair of the computed
`MatchResult` and the candidate store after the call. -/
def match_single_st (t : ℚ) (negative : NegativeInvoice)
    (candidates : List BlueLineItem) : MatchResult × List BlueLineItem :=
  if candidates.isEmpty then
    ({ negative_invoice_id := negative.invoice_id, success := false, allocations := [],
       total_matched := 0, fragments_created := 0, failure_reason := some NO_CANDIDATES },
     candidates)
  else
    let step := greedyLoopSt t negative.amount [] 0 candidates
    let r := step.1
    if r.1 ≤ 1/100 then
      ({ negative_invoice_id := negative.invoice_id, success := true, allocations := r.2.1,
         total_matched := negative.amount - r.1, fragments_created := r.2.2,
         failure_reason := none }, step.2)
    else
      ({ negative_invoice_id := negative.invoice_id, success := false, allocations := [],
         total_matched := 0, fragments_created := 0,
         failure_reason := some INSUFFICIENT_TOTAL_AMOUNT }, step.2)

/-- Pointwise form of `applyAllocs`: the update folded over one entry. -/
def entryUpdate (allocations : List MatchAllocation) (c : BlueLineItem) : BlueLineItem :=
  allocations.foldl
    (fun c alloc =>
      if c.line_id = alloc.blue_line_id
      then { c with remaining := alloc.remaining_after } else c) c

/-- Total `amount_used` drawn from credit line `L` by one allocation list. -/
def sumUsedFor (L : Nat) (allocations : List MatchAllocation) : ℚ :=
  ((allocations.filter (fun a => a.blue_line_id = L)).map (fun a => a.amount_used)).sum

/-- Amount drawn from credit line `L` by one `MatchResult` (zero unless the
result succeeded). -/
def drawnBy (L : Nat) (r : MatchResult) : ℚ :=
  if r.success then sumUsedFor L r.allocations else 0

/-- Amount drawn from credit line `L` across a list of results. -/
def totalDrawn (L : Nat) (results : List MatchResult) : ℚ :=
  (results.map (drawnBy L)).sum

/-- One step of `_group_negatives_by_conditions` (`matching_engine.py`
lines 372-387): insert an indexed demand into the dict keyed by
`(tax_rate, buyer_id, seller_id)`, appending to an existing group or
creating a new one at the end (Python dict insertion order). -/
def groupStep (groups : List (GroupKey × List (Nat × NegativeInvoice)))
    (p : Nat × NegativeInvoice) : List (GroupKey × List (Nat × NegativeInvoice)) :=
  if groups.any (fun g => g.1 = negKey p.2)
  then groups.map (fun g => if g.1 = negKey p.2 then (g.1, g.2 ++ [p]) else g)
  else groups ++ [(negKey p.2, [p])]

/-- `GreedyMatchingEngine._group_negatives_by_conditions`: the grouping
dict as an insertion-ordered association list of
`(key, [(original index, demand), ...])`. -/
def group_negatives_by_conditions (negatives : List NegativeInvoice) :
    List (GroupKey × List (Nat × NegativeInvoice)) :=
  negatives.enum.foldl groupStep []

/-- `GreedyMatchingEngine._match_batch_standard` (`matching_engine.py`
lines 289-370).  The candidate provider is abstracted as a pure function
from grouping key to candidate list (the prefetch step hands
`group_candidates[key]` to the group matcher; its limit behaviour is
modelled separately by `get_candidates_batch`).  The output list is
initialised to `None`s of the input length; a key with no candidates marks
each of its demands failed at its original index; otherwise the group's
results are zipped against the **unsorted** group list, exactly as in the
source (line 346). -/
def match_batch_standard (t : ℚ) (negatives : List NegativeInvoice)
    (candidate_provider : GroupKey → List BlueLineItem)
    (sort_strategy : String) : List (Option MatchResult) :=
  (group_negatives_by_conditions negatives).foldl
    (fun results g =>
      let candidates := candidate_provider g.1
      if candidates.isEmpty then
        g.2.foldl
          (fun rs p =>
            rs.set p.1 (some
              { negative_invoice_id := p.2.invoice_id, success := false,
                allocations := [], total_matched := 0, fragments_created := 0,
                failure_reason := some NO_CANDIDATES }))
          results
      else
        let group_results := match_group t g.2 candidates sort_strategy
        (g.2.zip group_results).foldl
          (fun rs pr => rs.set pr.1.1 (some pr.2)) results)
    (List.replicate negatives.length none)

/-- `GreedyMatchingEngine.match_batch_streaming` (`matching_engine.py`
lines 488-533): the loop `for i in range(0, total_count, batch_size)`
processes the slice `negatives[i:i+batch_size]` through the standard batch
and extends the accumulated result list. -/
def match_batch_streaming (t : ℚ) (negatives : List NegativeInvoice)
    (candidate_provider : GroupKey → List BlueLineItem)
    (batch_size : Nat) (sort_strategy : String) : List (Option MatchResult) :=
  ((List.range ((negatives.length + batch_size - 1) / batch_size)).map
      (fun k => k * batch_size)).foldl
    (fun all_results i =>
      all_results ++
        match_batch_standard t ((negatives.drop i).take batch_size)
          candidate_provider sort_strategy)
    []

/-- `GreedyMatchingEngine.match_batch` (`matching_engine.py` lines
564-603): at least 10,000 demands stream with chunk size 1,000, smaller
inputs use the standard batch. -/
def match_batch (t : ℚ) (negatives : List NegativeInvoice)
    (candidate_provider : GroupKey → List BlueLineItem)
    (sort_strategy : String) : List (Option MatchResult) :=
  if 10000 ≤ negatives.length then
    match_batch_streaming t negatives candidate_provider 1000 sort_strategy
  else
    match_batch_standard t negatives candidate_provider sort_strategy

/-- Specification-side chunking: consecutive chunks of 1,000 demands
(the spec's description of the streaming controller). -/
def chunks1000 : List NegativeInvoice → List (List NegativeInvoice)
  | [] => []
  | a :: tl => ((a :: tl).take 1000) :: chunks1000 ((a :: tl).drop 1000)
termination_by l => l.length
decreasing_by simp [List.length_drop, List.length_cons]; omega

/-- Lookup of a condition's demand count in the optional `group_counts`
dict of `get_candidates_batch` (`db_manager.py` line 139). -/
def lookupCount (group_counts : List (GroupKey × Nat)) (condition : GroupKey) : Option Nat :=
  (group_counts.find? (fun p => p.1 = condition)).map (fun p => p.2)

/-- Per-condition `LIMIT` of `get_candidates_batch` (`db_manager.py` lines
138-144): when a (truthy, i.e. nonempty) `group_counts` dict carries the
condition, the dynamic cap `min(DYNAMIC_LIMIT_BASE * count,
DYNAMIC_LIMIT_MAX)` applies; otherwise the default `limit` parameter. -/
def actual_limit (limit : Nat) (group_counts : List (GroupKey × Nat))
    (condition : GroupKey) : Nat :=
  match group_counts, lookupCount group_counts condition with
  | _ :: _, some n => min (DYNAMIC_LIMIT_BASE * n) DYNAMIC_LIMIT_MAX
  | _, _ => limit

/-- One UNION-ALL subquery of `get_candidates_batch`: the `blue_lines` rows
matching the condition with `remaining > 0`, ordered ascending by
remaining, truncated at the subquery's `LIMIT`. -/
def condition_query (db : List BlueLineItem) (condition : GroupKey) (lim : Nat) :
    List BlueLineItem :=
  (sortedBy byRemaining
    (db.filter (fun r => blueKey r = condition ∧ 0 < r.remaining))).take lim

/-- The single batched round-trip issued by `get_candidates_batch`: one
UNION-ALL query with one subquery per condition, each carrying its own
`LIMIT`. -/
def batch_query_plan (conditions : List GroupKey) (limit : Nat)
    (group_counts : List (GroupKey × Nat)) : List (GroupKey × Nat) :=
  conditions.map (fun condition => (condition, actual_limit limit group_counts condition))

/-- `DatabaseManager.get_candidates_batch` (`db_manager.py` lines 102-193):
execute the batched query plan over the table, then regroup the returned
rows per condition, appending each row while the condition's list is still
below the default `limit` (line 170 re-truncates at `limit`, not at the
per-condition dynamic limit). -/
def get_candidates_batch (db : List BlueLineItem) (conditions : List GroupKey)
    (limit : Nat) (group_counts : List (GroupKey × Nat)) :
    GroupKey → List BlueLineItem :=
  let all_rows :=
    ((batch_query_plan conditions limit group_counts).map
      (fun p => condition_query db p.1 p.2)).flatten
  fun condition =>
    if condition ∈ conditions
    then (all_rows.filter (fun r => blueKey r = condition)).take limit
    else []

/-- The round-trip issued by
`GreedyMatchingEngine._prefetch_candidates_for_groups`
(`matching_engine.py` lines 389-408) on the batched path: it calls
`get_candidates_batch(conditions)` with the default `limit` (10000) and
**without** `group_counts`. -/
def prefetch_plan (groups : List (GroupKey × List (Nat × NegativeInvoice))) :
    List (GroupKey × Nat) :=
  batch_query_plan (groups.map (fun g => g.1)) 10000 []

/-- The candidates the batched prefetch hands to the engine. -/
def prefetch_candidates (db : List BlueLineItem)
    (groups : List (GroupKey × List (Nat × NegativeInvoice))) :
    GroupKey → List BlueLineItem :=
  get_candidates_batch db (groups.map (fun g => g.1)) 10000 []

/-- `save_match_results` preparation (`db_manager.py` lines 204-220): the
`(blue_line_id, amount_used)` pairs of every successful result's
allocations, in order. -/
def collect_allocations (results : List MatchResult) : List (Nat × ℚ) :=
  (results.filter (fun r => r.success)).flatMap
    (fun r => r.allocations.map (fun a => (a.blue_line_id, a.amount_used)))

/-- The audit rows `(batch_id, negative_invoice_id, blue_line_id,
amount_used)` collected in the same pass. -/
def collect_match_records (batch_id : String) (results : List MatchResult) :
    List (String × Nat × Nat × ℚ) :=
  (results.filter (fun r => r.success)).flatMap
    (fun r => r.allocations.map
      (fun a => (batch_id, r.negative_invoice_id, a.blue_line_id, a.amount_used)))

/-- One conditional `UPDATE blue_lines SET remaining = remaining - %s WHERE
line_id = %s AND remaining >= %s` over the table, together with its
rowcount. -/
def conditional_update (store : List (Nat × ℚ)) (line_id : Nat) (amount_used : ℚ) :
    List (Nat × ℚ) × Nat :=
  (store.map (fun e =>
     if e.1 = line_id ∧ amount_used ≤ e.2 then (e.1, e.2 - amount_used) else e),
   store.countP (fun e => e.1 = line_id ∧ amount_used ≤ e.2))

/-- The `executemany` of conditional updates (`db_manager.py` lines
240-254): updates run sequentially inside the transaction and `rowcount`
accumulates the affected-row counts. -/
def run_updates : List (Nat × ℚ) → List (Nat × ℚ) → List (Nat × ℚ) × Nat
  | store, [] => (store, 0)
  | store, p :: rest =>
    let u := conditional_update store p.1 p.2
    let r := run_updates u.1 rest
    (r.1, u.2 + r.2)

/-- `SELECT line_id, remaining FROM blue_lines WHERE line_id = ...`: the
remaining of the first row with the given id, if any. -/
def table_lookup (store : List (Nat × ℚ)) (line_id : Nat) : Option ℚ :=
  (store.find? (fun e => e.1 = line_id)).map (fun e => e.2)

/-- The post-hoc conflict check of `save_match_results` (`db_manager.py`
lines 269-271): an allocation is flagged when its line is absent from the
queried state or its (in-transaction) remaining is below `amount_used`. -/
def insufficient_check (queried : List (Nat × ℚ)) (p : Nat × ℚ) : Bool :=
  match table_lookup queried p.1 with
  | none => true
  | some r => decide (r < p.2)

/-- Outcome of one `save_match_results` call over the modelled database
state: the `blue_lines` table, the `match_records` audit table, the
returned boolean, and the failed-lines list carried by the raised
concurrent-conflict error (empty on success). -/
structure SaveOutcome where
  blue_lines : List (Nat × ℚ)
  audit : List (String × Nat × Nat × ℚ)
  ok : Bool
  failed_lines : List Nat
deriving DecidableEq

/-- `DatabaseManager.save_match_results` (`db_manager.py` lines 195-308):
collect the successful allocations; an empty collection returns success
without touching the database; otherwise run the conditional updates in one
transaction; if every row was affected, insert the audit records and
commit; otherwise query the (partially updated, still uncommitted) table,
flag the allocations whose lines now show insufficient remaining, raise —
which rolls the whole transaction back — and return failure. -/
def save_match_results (store : List (Nat × ℚ)) (audit : List (String × Nat × Nat × ℚ))
    (results : List MatchResult) (batch_id : String) : SaveOutcome :=
  let all_allocations := collect_allocations results
  let match_records := collect_match_records batch_id results
  if all_allocations = [] then
    { blue_lines := store, audit := audit, ok := true, failed_lines := [] }
  else
    let upd := run_updates store all_allocations
    if upd.2 = all_allocations.length then
      { blue_lines := upd.1, audit := audit ++ match_records, ok := true,
        failed_lines := [] }
    else
      { blue_lines := store, audit := audit, ok := false,
        failed_lines :=
          (all_allocations.filter (insufficient_check upd.1)).map (fun p => p.1) }

/-- Analysis helper: the allocations whose conditional decrement affected
no row at its own point in the update sequence — the lines that actually
changed underneath the batch. -/
def conflicting_lines : List (Nat × ℚ) → List (Nat × ℚ) → List Nat
  | _, [] => []
  | store, p :: rest =>
    let u := conditional_update store p.1 p.2
    (if u.2 = 0 then [p.1] else []) ++ conflicting_lines u.1 rest

/-- Batch tag used by the concrete persistence scenarios. -/
def BATCH_W : String := "batch-w"

/-- Unfolding: the greedy loop on an exhausted candidate list. -/
theorem greedyLoop_nil (t need : ℚ) (allocations : List MatchAllocation) (fragments : Nat) :
    greedyLoop t need allocations fragments [] = (need, allocations, fragments) := rfl

/-- Unfolding: the greedy loop breaks as soon as `need ≤ 0.01`. -/
theorem greedyLoop_cons_le {need : ℚ} (t : ℚ) (h : need ≤ 1/100)
    (allocations : List MatchAllocation) (fragments : Nat)
    (c : BlueLineItem) (rest : List BlueLineItem) :
    greedyLoop t need allocations fragments (c :: rest) = (need, allocations, fragments) := by
  simp only [greedyLoop]
  rw [if_pos h]

/-- Unfolding: the greedy loop consumes the head candidate while
`need > 0.01`. -/
theorem greedyLoop_cons_gt {need : ℚ} (t : ℚ) (h : ¬ need ≤ 1/100)
    (allocations : List MatchAllocation) (fragments : Nat)
    (c : BlueLineItem) (rest : List BlueLineItem) :
    greedyLoop t need allocations fragments (c :: rest) =
      greedyLoop t (need - min need c.remaining)
        (allocations ++ [⟨c.line_id, min need c.remaining,
          c.remaining - min need c.remaining⟩])
        (fragments + fragIncr t (c.remaining - min need c.remaining)) rest := by
  simp only [greedyLoop]
  rw [if_neg h]

/-- Accumulator-shift lemma for the greedy loop: the loop run from an
arbitrary accumulated state is the run from the empty state, prefixed and
offset by the accumulator. -/
theorem greedyLoop_acc (t : ℚ) (cs : List BlueLineItem) :
    ∀ (need : ℚ) (allocations : List MatchAllocation) (fragments : Nat),
      greedyLoop t need allocations fragments cs =
        ((greedyLoop t need [] 0 cs).1,
         allocations ++ (greedyLoop t need [] 0 cs).2.1,
         fragments + (greedyLoop t need [] 0 cs).2.2) := by
  induction cs with
  | nil => intro need allocations fragments; simp [greedyLoop_nil]
  | cons c rest ih =>
    intro need allocations fragments
    by_cases h : need ≤ 1/100
    · rw [greedyLoop_cons_le t h, greedyLoop_cons_le t h]
      simp
    · rw [greedyLoop_cons_gt t h, greedyLoop_cons_gt t h]
      simp only [List.nil_append, Nat.zero_add]
      rw [ih, ih (need - min need c.remaining)
        [⟨c.line_id, min need c.remaining, c.remaining - min need c.remaining⟩]
        (fragIncr t (c.remaining - min need c.remaining))]
      simp [List.append_assoc, Nat.add_assoc]

/-- Every allocation recorded by the greedy loop consumes part of one of the
candidates: its id is a candidate id, `amount_used + remaining_after`
reconstructs that candidate's remaining, and (when all candidate remainings
are nonnegative) both parts are nonnegative. -/
theorem greedyLoop_allocs_spec (t : ℚ) (cs : List BlueLineItem)
    (hpos : ∀ c ∈ cs, 0 ≤ c.remaining) :
    ∀ need : ℚ, ∀ a ∈ (greedyLoop t need [] 0 cs).2.1,
      ∃ c ∈ cs, a.blue_line_id = c.line_id ∧
        a.amount_used + a.remaining_after = c.remaining ∧
        0 ≤ a.amount_used ∧ 0 ≤ a.remaining_after := by
  induction cs with
  | nil => intro need a ha; simp [greedyLoop_nil] at ha
  | cons c rest ih =>
    intro need a ha
    by_cases h : need ≤ 1/100
    · rw [greedyLoop_cons_le t h] at ha
      simp at ha
    · rw [greedyLoop_cons_gt t h] at ha
      simp only [List.nil_append, Nat.zero_add] at ha
      rw [greedyLoop_acc] at ha
      simp only [List.singleton_append, List.mem_cons] at ha
      rcases ha with rfl | ha
      · refine ⟨c, List.mem_cons_self c rest, rfl, by ring, ?_, ?_⟩
        · have hn : (0:ℚ) < need := lt_trans (by norm_num) (not_le.mp h)
          exact le_min hn.le (hpos c (List.mem_cons_self c rest))
        · have := min_le_right need c.remaining
          show 0 ≤ c.remaining - min need c.remaining
          linarith
      · obtain ⟨c', hc', hprop⟩ := ih (fun x hx => hpos x (List.mem_cons_of_mem c hx)) _ a ha
        exact ⟨c', List.mem_cons_of_mem c hc', hprop⟩

/-- The ids of the allocations recorded by the greedy loop form a sublist of
the candidate ids (each candidate is consumed at most once, in order). -/
theorem greedyLoop_ids_sublist (t : ℚ) (cs : List BlueLineItem) :
    ∀ need : ℚ,
      ((greedyLoop t need [] 0 cs).2.1.map (fun a => a.blue_line_id)).Sublist
        (cs.map (fun c => c.line_id)) := by
  induction cs with
  | nil => intro need; simp [greedyLoop_nil]
  | cons c rest ih =>
    intro need
    by_cases h : need ≤ 1/100
    · rw [greedyLoop_cons_le t h]; simp
    · rw [greedyLoop_cons_gt t h]
      simp only [List.nil_append, Nat.zero_add]
      rw [greedyLoop_acc]
      simpa using (ih (need - min need c.remaining)).cons₂ c.line_id

/-- The amounts used by the greedy loop sum to the drop in `need`. -/
theorem greedyLoop_sum_used (t : ℚ) (cs : List BlueLineItem) :
    ∀ need : ℚ,
      ((greedyLoop t need [] 0 cs).2.1.map (fun a => a.amount_used)).sum =
        need - (greedyLoop t need [] 0 cs).1 := by
  induction cs with
  | nil => intro need; simp [greedyLoop_nil]
  | cons c rest ih =>
    intro need
    by_cases h : need ≤ 1/100
    · rw [greedyLoop_cons_le t h]; simp
    · rw [greedyLoop_cons_gt t h]
      simp only [List.nil_append, Nat.zero_add]
      rw [greedyLoop_acc]
      simp only [List.singleton_append, List.map_cons, List.sum_cons]
      rw [ih (need - min need c.remaining)]
      ring

/-- The fragment counter of the greedy loop counts exactly the recorded
allocations whose `remaining_after` lies strictly between `0` and the
threshold. -/
theorem greedyLoop_frags (t : ℚ) (cs : List BlueLineItem) :
    ∀ need : ℚ,
      (greedyLoop t need [] 0 cs).2.2 =
        (greedyLoop t need [] 0 cs).2.1.countP
          (fun a => 0 < a.remaining_after ∧ a.remaining_after < t) := by
  induction cs with
  | nil => intro need; simp [greedyLoop_nil]
  | cons c rest ih =>
    intro need
    by_cases h : need ≤ 1/100
    · rw [greedyLoop_cons_le t h]; simp
    · rw [greedyLoop_cons_gt t h]
      simp only [List.nil_append, Nat.zero_add]
      rw [greedyLoop_acc]
      simp only [List.singleton_append, List.countP_cons, ← ih (need - min need c.remaining),
        decide_eq_true_eq, fragIncr]
      exact Nat.add_comm _ _

/-- The final `need` of the greedy loop is nonnegative whenever the initial
`need` is (each step subtracts at most the current `need`). -/
theorem greedyLoop_need_nonneg (t : ℚ) (cs : List BlueLineItem) :
    ∀ need : ℚ, 0 ≤ need → 0 ≤ (greedyLoop t need [] 0 cs).1 := by
  induction cs with
  | nil => intro need hn; simpa [greedyLoop_nil] using hn
  | cons c rest ih =>
    intro need hn
    by_cases h : need ≤ 1/100
    · rw [greedyLoop_cons_le t h]; exact hn
    · rw [greedyLoop_cons_gt t h]
      simp only [List.nil_append, Nat.zero_add]
      rw [greedyLoop_acc]
      refine ih (need - min need c.remaining) ?_
      have := min_le_left need c.remaining
      linarith

/-- Unfolding: `match_single` on an empty candidate list. -/
theorem match_single_nil (t : ℚ) (n : NegativeInvoice) :
    match_single t n [] =
      { negative_invoice_id := n.invoice_id, success := false, allocations := [],
        total_matched := 0, fragments_created := 0,
        failure_reason := some NO_CANDIDATES } := rfl

/-- Unfolding: `match_single` when candidates exist and the greedy pass
covers the demand within tolerance. -/
theorem match_single_of_le {t : ℚ} {n : NegativeInvoice} {cs : List BlueLineItem}
    (hne : cs ≠ []) (hle : (greedyLoop t n.amount [] 0 cs).1 ≤ 1/100) :
    match_single t n cs =
      { negative_invoice_id := n.invoice_id, success := true,
        allocations := (greedyLoop t n.amount [] 0 cs).2.1,
        total_matched := n.amount - (greedyLoop t n.amount [] 0 cs).1,
        fragments_created := (greedyLoop t n.amount [] 0 cs).2.2,
        failure_reason := none } := by
  unfold match_single
  rw [if_neg (by simpa [List.isEmpty_iff] using hne)]
  simp only
  rw [if_pos hle]

/-- Unfolding: `match_single` when candidates exist but the greedy pass
leaves `need > 0.01`. -/
theorem match_single_of_gt {t : ℚ} {n : NegativeInvoice} {cs : List BlueLineItem}
    (hne : cs ≠ []) (hgt : ¬ (greedyLoop t n.amount [] 0 cs).1 ≤ 1/100) :
    match_single t n cs =
      { negative_invoice_id := n.invoice_id, success := false, allocations := [],
        total_matched := 0, fragments_created := 0,
        failure_reason := some INSUFFICIENT_TOTAL_AMOUNT } := by
  unfold match_single
  rw [if_neg (by simpa [List.isEmpty_iff] using hne)]
  simp only
  rw [if_neg hgt]

/-- On success, `match_single` is in the middle branch: the candidate list
was nonempty, the final `need` is within tolerance, and the result carries
the greedy loop's allocations, `amount - need` and the fragment count. -/
theorem match_single_success (t : ℚ) (n : NegativeInvoice) (cs : List BlueLineItem)
    (h : (match_single t n cs).success = true) :
    cs ≠ [] ∧ (greedyLoop t n.amount [] 0 cs).1 ≤ 1/100 ∧
    (match_single t n cs).allocations = (greedyLoop t n.amount [] 0 cs).2.1 ∧
    (match_single t n cs).total_matched = n.amount - (greedyLoop t n.amount [] 0 cs).1 ∧
    (match_single t n cs).fragments_created = (greedyLoop t n.amount [] 0 cs).2.2 := by
  rcases cs with _ | ⟨c, rest⟩
  · rw [match_single_nil] at h
    simp at h
  · by_cases hs : (greedyLoop t n.amount [] 0 (c :: rest)).1 ≤ 1/100
    · rw [match_single_of_le (List.cons_ne_nil c rest) hs]
      exact ⟨List.cons_ne_nil c rest, hs, rfl, rfl, rfl⟩
    · rw [match_single_of_gt (List.cons_ne_nil c rest) hs] at h
      simp at h

/-- Inserting an element is a permutation of consing it. -/
theorem insertSorted_perm {α : Type} (lt : α → α → Bool) (a : α) :
    ∀ l : List α, (insertSorted lt a l).Perm (a :: l) := by
  intro l
  induction l with
  | nil => simp [insertSorted]
  | cons b l ih =>
    by_cases h : lt b a
    · simp only [insertSorted, if_pos h]
      exact (ih.cons b).trans (List.Perm.swap a b l)
    · simp only [insertSorted, if_neg h]
      exact List.Perm.refl _

/-- Sorting is a permutation of the input. -/
theorem sortedBy_perm {α : Type} (lt : α → α → Bool) :
    ∀ l : List α, (sortedBy lt l).Perm l := by
  intro l
  induction l with
  | nil => simp [sortedBy]
  | cons a l ih =>
    exact (insertSorted_perm lt a (sortedBy lt l)).trans (ih.cons a)

/-- Membership is preserved by the sort. -/
theorem mem_sortedBy {α : Type} (lt : α → α → Bool) (l : List α) (a : α) :
    a ∈ sortedBy lt l ↔ a ∈ l :=
  (sortedBy_perm lt l).mem_iff

/-- The state-threaded greedy loop computes the pure loop and hands the
candidate store back unchanged. -/
theorem greedyLoopSt_eq (t : ℚ) (cs : List BlueLineItem) :
    ∀ (need : ℚ) (allocations : List MatchAllocation) (fragments : Nat),
      greedyLoopSt t need allocations fragments cs =
        (greedyLoop t need allocations fragments cs, cs) := by
  induction cs with
  | nil => intro need allocations fragments; rfl
  | cons c rest ih =>
    intro need allocations fragments
    by_cases h : need ≤ 1/100
    · simp only [greedyLoopSt, greedyLoop]
      rw [if_pos h, if_pos h]
    · simp only [greedyLoopSt, greedyLoop]
      rw [if_neg h, if_neg h, ih]

/-- The state-threaded `match_single` computes the pure result and returns
the candidate store unchanged. -/
theorem match_single_st_eq (t : ℚ) (n : NegativeInvoice) (cs : List BlueLineItem) :
    match_single_st t n cs = (match_single t n cs, cs) := by
  simp only [match_single_st, match_single, greedyLoopSt_eq]
  by_cases he : cs.isEmpty
  · rw [if_pos he, if_pos he]
  · rw [if_neg he, if_neg he]
    by_cases hr : (greedyLoop t n.amount [] 0 cs).1 ≤ 1/100
    · rw [if_pos hr, if_pos hr]
    · rw [if_neg hr, if_neg hr]

/-- C9: `match_single` is pure and deterministic — executed with an
explicit candidate store, it leaves the store unchanged (no candidate's
`remaining` is mutated), and a second call on the post-call store returns
the identical `MatchResult`. -/
theorem C9_pure_idempotent (t : ℚ) (n : NegativeInvoice) (cs : List BlueLineItem) :
    match_single_st t n cs = (match_single t n cs, cs) ∧
    (match_single_st t n (match_single_st t n cs).2).1 = (match_single_st t n cs).1 := by
  refine ⟨match_single_st_eq t n cs, ?_⟩
  rw [match_single_st_eq, match_single_st_eq]

/-- C10: a demand whose amount is positive but within the 0.01 tolerance
succeeds against any nonempty candidate list with no allocations, zero
total matched and zero fragments: the greedy loop breaks before consuming
any candidate. -/
theorem C10_tiny_amount_success (t : ℚ) (n : NegativeInvoice) (cs : List BlueLineItem)
    (_h1 : 0 < n.amount) (h2 : n.amount ≤ 1/100) (h3 : cs ≠ []) :
    match_single t n cs =
      { negative_invoice_id := n.invoice_id, success := true, allocations := [],
        total_matched := 0, fragments_created := 0, failure_reason := none } := by
  rcases cs with _ | ⟨c, rest⟩
  · exact absurd rfl h3
  · have hloop : greedyLoop t n.amount [] 0 (c :: rest) = (n.amount, [], 0) :=
      greedyLoop_cons_le t h2 [] 0 c rest
    rw [match_single_of_le (List.cons_ne_nil c rest) (by rw [hloop]; exact h2)]
    simp [hloop]

/-- Witness for C10 at a concrete input: demand amount `0.01` against one
candidate of remaining `50`. -/
theorem C10_tiny_amount_success_witness :
    match_single 5 ⟨9, 1/100, 6, 1, 1, 0⟩ [⟨1, 50, 6, 1, 1⟩] =
      { negative_invoice_id := 9, success := true, allocations := [],
        total_matched := 0, fragments_created := 0, failure_reason := none } :=
  C10_tiny_amount_success 5 ⟨9, 1/100, 6, 1, 1, 0⟩ [⟨1, 50, 6, 1, 1⟩]
    (by norm_num) (by norm_num) (by simp)

/-- C5: a failed `match_single` reports an empty allocation list, zero
total matched and zero fragments, with reason `NO_CANDIDATES` exactly when
the candidate list was empty on entry and `INSUFFICIENT_TOTAL_AMOUNT`
(with residual `need > 0.01`) otherwise. -/
theorem C5_failure_semantics (t : ℚ) (n : NegativeInvoice) (cs : List BlueLineItem)
    (h : (match_single t n cs).success = false) :
    (match_single t n cs).allocations = [] ∧
    (match_single t n cs).total_matched = 0 ∧
    (match_single t n cs).fragments_created = 0 ∧
    (cs = [] → (match_single t n cs).failure_reason = some NO_CANDIDATES) ∧
    (cs ≠ [] → (match_single t n cs).failure_reason = some INSUFFICIENT_TOTAL_AMOUNT ∧
      1/100 < (greedyLoop t n.amount [] 0 cs).1) := by
  rcases cs with _ | ⟨c, rest⟩
  · rw [match_single_nil]
    exact ⟨rfl, rfl, rfl, fun _ => rfl, fun hne => absurd rfl hne⟩
  · by_cases hs : (greedyLoop t n.amount [] 0 (c :: rest)).1 ≤ 1/100
    · rw [match_single_of_le (List.cons_ne_nil c rest) hs] at h
      simp at h
    · rw [match_single_of_gt (List.cons_ne_nil c rest) hs]
      exact ⟨rfl, rfl, rfl, fun he => (List.cons_ne_nil c rest he).elim,
        fun _ => ⟨rfl, not_le.mp hs⟩⟩

/-- Witness for C5 at a concrete input: demand 500 against candidates with
remainings 100, 80, 50 — a failure with discarded partial coverage. -/
theorem C5_failure_semantics_witness :
    (match_single 5 ⟨2, 500, 6, 1, 1, 0⟩
        [⟨1, 100, 6, 1, 1⟩, ⟨2, 80, 6, 1, 1⟩, ⟨3, 50, 6, 1, 1⟩]).success = false ∧
    (match_single 5 ⟨2, 500, 6, 1, 1, 0⟩
        [⟨1, 100, 6, 1, 1⟩, ⟨2, 80, 6, 1, 1⟩, ⟨3, 50, 6, 1, 1⟩]).allocations = [] ∧
    (match_single 5 ⟨2, 500, 6, 1, 1, 0⟩
        [⟨1, 100, 6, 1, 1⟩, ⟨2, 80, 6, 1, 1⟩, ⟨3, 50, 6, 1, 1⟩]).total_matched = 0 ∧
    (match_single 5 ⟨2, 500, 6, 1, 1, 0⟩
        [⟨1, 100, 6, 1, 1⟩, ⟨2, 80, 6, 1, 1⟩, ⟨3, 50, 6, 1, 1⟩]).failure_reason =
      some INSUFFICIENT_TOTAL_AMOUNT := by
  have hs : (match_single 5 ⟨2, 500, 6, 1, 1, 0⟩
      [⟨1, 100, 6, 1, 1⟩, ⟨2, 80, 6, 1, 1⟩, ⟨3, 50, 6, 1, 1⟩]).success = false := by
    norm_num [match_single, greedyLoop, fragIncr]
  obtain ⟨h1, h2, h3, -, h5⟩ := C5_failure_semantics 5 ⟨2, 500, 6, 1, 1, 0⟩
    [⟨1, 100, 6, 1, 1⟩, ⟨2, 80, 6, 1, 1⟩, ⟨3, 50, 6, 1, 1⟩] hs
  exact ⟨hs, h1, h2, (h5 (by simp)).1⟩

/-- C8: on success, `fragments_created` equals the number of returned
allocations whose `remaining_after` lies strictly between 0 and the
configured fragment threshold. -/
theorem C8_fragment_count (t : ℚ) (n : NegativeInvoice) (cs : List BlueLineItem)
    (h : (match_single t n cs).success = true) :
    (match_single t n cs).fragments_created =
      (match_single t n cs).allocations.countP
        (fun a => 0 < a.remaining_after ∧ a.remaining_after < t) := by
  obtain ⟨-, -, hall, -, hfrag⟩ := match_single_success t n cs h
  rw [hall, hfrag, greedyLoop_frags]

/-- Witness for C8 at the spec's concrete scenario: candidates
`[10.00, 4.99]`, threshold `5.0`, demand `12.00` — success with total
`12.00`, allocations `10.00` and `2.00` (leftover `2.99`), one fragment. -/
theorem C8_fragment_count_witness :
    match_single 5 ⟨4, 12, 6, 1, 1, 0⟩ [⟨11, 10, 6, 1, 1⟩, ⟨12, 499/100, 6, 1, 1⟩] =
      { negative_invoice_id := 4, success := true,
        allocations := [⟨11, 10, 0⟩, ⟨12, 2, 299/100⟩], total_matched := 12,
        fragments_created := 1, failure_reason := none } ∧
    (match_single 5 ⟨4, 12, 6, 1, 1, 0⟩
        [⟨11, 10, 6, 1, 1⟩, ⟨12, 499/100, 6, 1, 1⟩]).fragments_created =
      (match_single 5 ⟨4, 12, 6, 1, 1, 0⟩
        [⟨11, 10, 6, 1, 1⟩, ⟨12, 499/100, 6, 1, 1⟩]).allocations.countP
        (fun a => 0 < a.remaining_after ∧ a.remaining_after < 5) := by
  have heval : match_single 5 ⟨4, 12, 6, 1, 1, 0⟩
      [⟨11, 10, 6, 1, 1⟩, ⟨12, 499/100, 6, 1, 1⟩] =
      { negative_invoice_id := 4, success := true,
        allocations := [⟨11, 10, 0⟩, ⟨12, 2, 299/100⟩], total_matched := 12,
        fragments_created := 1, failure_reason := none } := by
    norm_num [match_single, greedyLoop, fragIncr]
  exact ⟨heval, C8_fragment_count 5 ⟨4, 12, 6, 1, 1, 0⟩
    [⟨11, 10, 6, 1, 1⟩, ⟨12, 499/100, 6, 1, 1⟩] (by rw [heval])⟩

/-- C4 (amended to nonempty candidate lists): for a demand with positive
amount and candidates with nonnegative remainings, `match_single` succeeds
exactly when the greedy pass leaves `need ≤ 0.01`; on success the total
matched is `amount - need`, the allocations' amounts sum to it, it equals
the demand amount within 0.01, and every recorded `remaining_after` is
nonnegative. -/
theorem C4_greedy_scheme (t : ℚ) (n : NegativeInvoice) (cs : List BlueLineItem)
    (h1 : 0 < n.amount) (h2 : ∀ c ∈ cs, 0 ≤ c.remaining) (h3 : cs ≠ []) :
    ((match_single t n cs).success = true ↔ (greedyLoop t n.amount [] 0 cs).1 ≤ 1/100) ∧
    ((match_single t n cs).success = true →
      (match_single t n cs).total_matched = n.amount - (greedyLoop t n.amount [] 0 cs).1 ∧
      ((match_single t n cs).allocations.map (fun a => a.amount_used)).sum =
        (match_single t n cs).total_matched ∧
      n.amount - 1/100 ≤ (match_single t n cs).total_matched ∧
      (match_single t n cs).total_matched ≤ n.amount ∧
      ∀ a ∈ (match_single t n cs).allocations, 0 ≤ a.remaining_after) := by
  constructor
  · constructor
    · intro h
      exact (match_single_success t n cs h).2.1
    · intro hle
      rw [match_single_of_le h3 hle]
  · intro h
    obtain ⟨-, hle, hall, htm, -⟩ := match_single_success t n cs h
    have hnn := greedyLoop_need_nonneg t cs n.amount h1.le
    refine ⟨htm, ?_, ?_, ?_, ?_⟩
    · rw [hall, htm, greedyLoop_sum_used]
    · rw [htm]; linarith
    · rw [htm]; linarith
    · intro a ha
      rw [hall] at ha
      obtain ⟨c, -, -, -, -, hra⟩ := greedyLoop_allocs_spec t cs h2 n.amount a ha
      exact hra

/-- Counterexample to C4 as stated: with an *empty* candidate list and a
positive amount within the tolerance, the final `need` of the greedy pass
is `≤ 0.01` yet `match_single` fails (with `NO_CANDIDATES`), so "success
iff final need ≤ 0.01" does not hold for every candidate list. -/
theorem C4_counterexample_empty_candidates :
    0 < ((⟨7, 1/200, 6, 1, 1, 0⟩ : NegativeInvoice)).amount ∧
    (∀ c ∈ ([] : List BlueLineItem), 0 ≤ c.remaining) ∧
    (greedyLoop 5 ((⟨7, 1/200, 6, 1, 1, 0⟩ : NegativeInvoice)).amount [] 0 []).1 ≤ 1/100 ∧
    (match_single 5 ⟨7, 1/200, 6, 1, 1, 0⟩ []).success = false := by
  refine ⟨by norm_num, by simp, by norm_num [greedyLoop], by rw [match_single_nil]⟩

/-- Witness for C4 at the spec's first concrete scenario: candidates
500, 300, 200 (ascending order as fetched: 200, 300, 500), demand 1000. -/
theorem C4_greedy_scheme_witness :
    (match_single 5 ⟨1, 1000, 6, 1, 1, 0⟩
        [⟨1, 200, 6, 1, 1⟩, ⟨2, 300, 6, 1, 1⟩, ⟨3, 500, 6, 1, 1⟩]).success = true ∧
    (match_single 5 ⟨1, 1000, 6, 1, 1, 0⟩
        [⟨1, 200, 6, 1, 1⟩, ⟨2, 300, 6, 1, 1⟩, ⟨3, 500, 6, 1, 1⟩]).total_matched = 1000 ∧
    ((match_single 5 ⟨1, 1000, 6, 1, 1, 0⟩
        [⟨1, 200, 6, 1, 1⟩, ⟨2, 300, 6, 1, 1⟩, ⟨3, 500, 6, 1, 1⟩]).allocations.map
      (fun a => a.amount_used)).sum =
      (match_single 5 ⟨1, 1000, 6, 1, 1, 0⟩
        [⟨1, 200, 6, 1, 1⟩, ⟨2, 300, 6, 1, 1⟩, ⟨3, 500, 6, 1, 1⟩]).total_matched := by
  have hs : (match_single 5 ⟨1, 1000, 6, 1, 1, 0⟩
      [⟨1, 200, 6, 1, 1⟩, ⟨2, 300, 6, 1, 1⟩, ⟨3, 500, 6, 1, 1⟩]).success = true := by
    norm_num [match_single, greedyLoop, fragIncr]
  have htm : (match_single 5 ⟨1, 1000, 6, 1, 1, 0⟩
      [⟨1, 200, 6, 1, 1⟩, ⟨2, 300, 6, 1, 1⟩, ⟨3, 500, 6, 1, 1⟩]).total_matched = 1000 := by
    norm_num [match_single, greedyLoop, fragIncr]
  obtain ⟨-, hsum⟩ := C4_greedy_scheme 5 ⟨1, 1000, 6, 1, 1, 0⟩
    [⟨1, 200, 6, 1, 1⟩, ⟨2, 300, 6, 1, 1⟩, ⟨3, 500, 6, 1, 1⟩]
    (by norm_num) (by intro c hc; fin_cases hc <;> norm_num) (by simp)
  exact ⟨hs, htm, (hsum hs).2.1⟩

/-- `entryUpdate` never changes an entry's id (only `remaining` is
overwritten). -/
theorem entryUpdate_line_id (allocations : List MatchAllocation) :
    ∀ c : BlueLineItem, (entryUpdate allocations c).line_id = c.line_id := by
  induction allocations with
  | nil => intro c; rfl
  | cons a rest ih =>
    intro c
    show (entryUpdate rest (if c.line_id = a.blue_line_id
      then { c with remaining := a.remaining_after } else c)).line_id = c.line_id
    by_cases h : c.line_id = a.blue_line_id
    · rw [if_pos h, ih]
    · rw [if_neg h, ih]

/-- `applyAllocs` acts entrywise: folding the per-allocation map passes is
mapping `entryUpdate` over the snapshot. -/
theorem applyAllocs_eq_map (allocations : List MatchAllocation) :
    ∀ snap : List BlueLineItem,
      applyAllocs snap allocations = snap.map (entryUpdate allocations) := by
  induction allocations with
  | nil =>
    intro snap
    show snap = List.map (entryUpdate []) snap
    exact (List.map_id snap).symm
  | cons a rest ih =>
    intro snap
    show applyAllocs (snap.map _) rest = _
    rw [ih, List.map_map]
    rfl

/-- In a list of allocations with pairwise distinct ids, the allocations
drawn from one line are none or exactly one. -/
theorem filter_by_id_cases (allocations : List MatchAllocation)
    (hnd : (allocations.map (fun a => a.blue_line_id)).Nodup) (L : Nat) :
    allocations.filter (fun a => a.blue_line_id = L) = [] ∨
    ∃ b, allocations.filter (fun a => a.blue_line_id = L) = [b] := by
  induction allocations with
  | nil => exact Or.inl rfl
  | cons a rest ih =>
    simp only [List.map_cons, List.nodup_cons] at hnd
    by_cases h : a.blue_line_id = L
    · refine Or.inr ⟨a, ?_⟩
      have hrest : rest.filter (fun x => x.blue_line_id = L) = [] := by
        rw [List.filter_eq_nil_iff]
        intro x hx hpx
        exact hnd.1 (by
          rw [decide_eq_true_eq] at hpx
          rw [← h] at hpx
          exact hpx ▸ List.mem_map_of_mem (fun a => a.blue_line_id) hx)
      simp [List.filter_cons, h, hrest]
    · rw [List.filter_cons_of_neg (by simpa using h)]
      exact ih hnd.2
/-- When no allocation touches `c`'s line, `entryUpdate` leaves `c`
unchanged. -/
theorem entryUpdate_of_filter_nil (allocations : List MatchAllocation) :
    ∀ c : BlueLineItem,
      allocations.filter (fun a => a.blue_line_id = c.line_id) = [] →
      entryUpdate allocations c = c := by
  induction allocations with
  | nil => intro c _; rfl
  | cons a rest ih =>
    intro c hf
    by_cases h : a.blue_line_id = c.line_id
    · rw [List.filter_cons_of_pos (by simpa using h)] at hf
      exact absurd hf (List.cons_ne_nil _ _)
    · rw [List.filter_cons_of_neg (by simpa using h)] at hf
      show entryUpdate rest (if c.line_id = a.blue_line_id
        then { c with remaining := a.remaining_after } else c) = c
      rw [if_neg (fun hc => h hc.symm)]
      exact ih c hf

/-- When exactly one allocation `b` touches `c`'s line, `entryUpdate`
rewrites `c`'s remaining to `b.remaining_after`. -/
theorem entryUpdate_of_filter_singleton (allocations : List MatchAllocation) :
    ∀ (c : BlueLineItem) (b : MatchAllocation),
      allocations.filter (fun a => a.blue_line_id = c.line_id) = [b] →
      (entryUpdate allocations c).remaining = b.remaining_after := by
  induction allocations with
  | nil => intro c b hf; exact absurd hf.symm (List.cons_ne_nil _ _)
  | cons a rest ih =>
    intro c b hf
    by_cases h : a.blue_line_id = c.line_id
    · rw [List.filter_cons_of_pos (by simpa using h)] at hf
      obtain ⟨rfl, hrest⟩ : a = b ∧ rest.filter (fun x => x.blue_line_id = c.line_id) = [] := by
        constructor
        · exact (List.cons_eq_cons.mp hf).1
        · exact (List.cons_eq_cons.mp hf).2
      show (entryUpdate rest (if c.line_id = a.blue_line_id
        then { c with remaining := a.remaining_after } else c)).remaining = a.remaining_after
      rw [if_pos h.symm]
      rw [entryUpdate_of_filter_nil rest _ (by simpa using hrest)]
    · rw [List.filter_cons_of_neg (by simpa using h)] at hf
      show (entryUpdate rest (if c.line_id = a.blue_line_id
        then { c with remaining := a.remaining_after } else c)).remaining = b.remaining_after
      rw [if_neg (fun hc => h hc.symm)]
      exact ih c b hf

/-- Pointwise accounting for `entryUpdate`: under distinct allocation ids,
the entry's remaining drops by exactly the amount drawn from its line, and
remains nonnegative when every matching allocation leaves a nonnegative
remainder. -/
theorem entryUpdate_remaining (allocations : List MatchAllocation) (c : BlueLineItem)
    (hnd : (allocations.map (fun a => a.blue_line_id)).Nodup)
    (hmatch : ∀ a ∈ allocations, a.blue_line_id = c.line_id →
      a.amount_used + a.remaining_after = c.remaining ∧ 0 ≤ a.remaining_after) :
    (entryUpdate allocations c).remaining = c.remaining - sumUsedFor c.line_id allocations ∧
    (0 ≤ c.remaining → 0 ≤ (entryUpdate allocations c).remaining) := by
  rcases filter_by_id_cases allocations hnd c.line_id with hnil | ⟨b, hb⟩
  · rw [entryUpdate_of_filter_nil allocations c hnil]
    unfold sumUsedFor
    rw [hnil]
    exact ⟨by simp, fun h => h⟩
  · have hbmem : b ∈ allocations ∧ b.blue_line_id = c.line_id := by
      have : b ∈ allocations.filter (fun a => a.blue_line_id = c.line_id) := by
        rw [hb]; exact List.mem_singleton_self b
      rw [List.mem_filter, decide_eq_true_eq] at this
      exact this
    obtain ⟨hsum, hra⟩ := hmatch b hbmem.1 hbmem.2
    rw [entryUpdate_of_filter_singleton allocations c b hb]
    unfold sumUsedFor
    rw [hb]
    constructor
    · simp only [List.map_cons, List.map_nil, List.sum_cons, List.sum_nil, add_zero]
      linarith
    · intro _; exact hra

/-- Folding the dict-insertion step over candidates with pairwise distinct
ids appends them in order. -/
theorem dedup_foldl_of_nodup :
    ∀ (l acc : List BlueLineItem),
      (((acc ++ l).map (fun c => c.line_id)).Nodup) →
      l.foldl dedupStep acc = acc ++ l := by
  intro l
  induction l with
  | nil => intro acc _; simp
  | cons c rest ih =>
    intro acc h
    have hnotin : acc.any (fun x => x.line_id = c.line_id) = false := by
      rw [List.any_eq_false]
      intro x hx
      rw [List.map_append] at h
      have hdisj := (List.nodup_append.mp h).2.2
      intro hpx
      rw [decide_eq_true_eq] at hpx
      have h1 : x.line_id ∈ List.map (fun c => c.line_id) acc :=
        List.mem_map_of_mem (fun c => c.line_id) hx
      have h2 : x.line_id ∈ List.map (fun c => c.line_id) (c :: rest) := by
        rw [hpx]
        exact List.mem_map_of_mem (fun c => c.line_id) (List.mem_cons_self c rest)
      exact hdisj h1 h2
    have hstep : dedupStep acc c = acc ++ [c] := by
      unfold dedupStep
      rw [if_neg (by rw [hnotin]; exact Bool.false_ne_true)]
    show List.foldl dedupStep (dedupStep acc c) rest = acc ++ c :: rest
    rw [hstep, ih (acc ++ [c]) (by simpa using h)]
    simp

/-- Under pairwise distinct ids the snapshot dict enumerates the candidate
list itself. -/
theorem dedup_eq_of_nodup (candidates : List BlueLineItem)
    (hnd : (candidates.map (fun c => c.line_id)).Nodup) :
    dedupByLineId candidates = candidates := by
  have := dedup_foldl_of_nodup candidates [] (by simpa using hnd)
  simpa [dedupByLineId] using this

/-- The filtered, re-sorted `available_candidates` of one `_match_group`
step: its members are snapshot members with `remaining > 0.01`. -/
theorem mem_available (snap : List BlueLineItem) (c : BlueLineItem)
    (hc : c ∈ sortedBy byRemaining
      (snap.filter (fun x => (1:ℚ)/100 < x.remaining))) :
    c ∈ snap ∧ (1:ℚ)/100 < c.remaining := by
  rw [mem_sortedBy, List.mem_filter, decide_eq_true_eq] at hc
  exact hc

/-- The available candidates inherit pairwise distinct ids from the
snapshot. -/
theorem available_ids_nodup (snap : List BlueLineItem)
    (hnd : (snap.map (fun c => c.line_id)).Nodup) :
    ((sortedBy byRemaining
      (snap.filter (fun x => (1:ℚ)/100 < x.remaining))).map
        (fun c => c.line_id)).Nodup := by
  have hperm := (sortedBy_perm byRemaining
    (snap.filter (fun x => (1:ℚ)/100 < x.remaining))).map (fun c => c.line_id)
  rw [hperm.nodup_iff]
  exact hnd.sublist ((List.filter_sublist snap).map (fun c => c.line_id))

/-- Snapshot accounting for one successful demand of `_match_group`: with
pairwise distinct snapshot ids, every snapshot entry's remaining drops by
exactly the amount the result draws from its line, stays nonnegative, and
the ids are untouched. -/
theorem snapshot_step (t : ℚ) (snap : List BlueLineItem) (n : NegativeInvoice)
    (hnd : (snap.map (fun c => c.line_id)).Nodup)
    (hr : (match_single t n (sortedBy byRemaining
      (snap.filter (fun x => (1:ℚ)/100 < x.remaining)))).success = true) :
    ((applyAllocs snap (match_single t n (sortedBy byRemaining
        (snap.filter (fun x => (1:ℚ)/100 < x.remaining)))).allocations).map
      (fun c => c.line_id) = snap.map (fun c => c.line_id)) ∧
    ∀ e ∈ snap,
      (entryUpdate (match_single t n (sortedBy byRemaining
        (snap.filter (fun x => (1:ℚ)/100 < x.remaining)))).allocations e).remaining =
        e.remaining - sumUsedFor e.line_id (match_single t n (sortedBy byRemaining
          (snap.filter (fun x => (1:ℚ)/100 < x.remaining)))).allocations ∧
      (0 ≤ e.remaining →
        0 ≤ (entryUpdate (match_single t n (sortedBy byRemaining
          (snap.filter (fun x => (1:ℚ)/100 < x.remaining)))).allocations e).remaining) := by
  set available := sortedBy byRemaining
    (snap.filter (fun x => (1:ℚ)/100 < x.remaining)) with havail
  have hav_pos : ∀ c ∈ available, 0 ≤ c.remaining := by
    intro c hc
    have := (mem_available snap c (havail ▸ hc)).2
    linarith
  obtain ⟨-, -, hall, -, -⟩ := match_single_success t n available hr
  have hspec := greedyLoop_allocs_spec t available hav_pos n.amount
  have hids : (((match_single t n available).allocations).map
      (fun a => a.blue_line_id)).Nodup := by
    rw [hall]
    exact (available_ids_nodup snap hnd).sublist (greedyLoop_ids_sublist t available n.amount)
  have hmatch : ∀ e ∈ snap, ∀ a ∈ (match_single t n available).allocations,
      a.blue_line_id = e.line_id →
      a.amount_used + a.remaining_after = e.remaining ∧ 0 ≤ a.remaining_after := by
    intro e he a ha hae
    rw [hall] at ha
    obtain ⟨c, hc, haid, hsum, -, hra⟩ := hspec a ha
    obtain ⟨hcs, -⟩ := mem_available snap c (havail ▸ hc)
    have hce : c = e :=
      List.inj_on_of_nodup_map hnd hcs he (by rw [← haid, hae])
    exact ⟨hce ▸ hsum, hra⟩
  constructor
  · rw [applyAllocs_eq_map, List.map_map]
    exact List.map_congr_left (fun e _ => entryUpdate_line_id _ e)
  · intro e he
    exact entryUpdate_remaining _ e hids (fun a ha hae => hmatch e he a ha hae)

/-- Unfolding of one `matchGroupLoop` step. -/
theorem matchGroupLoop_cons (t : ℚ) (p : Nat × NegativeInvoice)
    (rest : List (Nat × NegativeInvoice)) (local_candidates : List BlueLineItem) :
    matchGroupLoop t (p :: rest) local_candidates =
      match_single t p.2 (sortedBy byRemaining
          (local_candidates.filter (fun c => (1:ℚ)/100 < c.remaining))) ::
        matchGroupLoop t rest
          (if (match_single t p.2 (sortedBy byRemaining
              (local_candidates.filter (fun c => (1:ℚ)/100 < c.remaining)))).success
           then applyAllocs local_candidates
             (match_single t p.2 (sortedBy byRemaining
               (local_candidates.filter (fun c => (1:ℚ)/100 < c.remaining)))).allocations
           else local_candidates) := rfl

/-- Core no-double-spend invariant of `_match_group`: starting from a
snapshot with pairwise distinct ids and nonnegative remainings, the total
drawn from any snapshot entry's line across the whole demand loop never
exceeds that entry's remaining. -/
theorem matchGroupLoop_bound (t : ℚ) :
    ∀ (gs : List (Nat × NegativeInvoice)) (snap : List BlueLineItem),
      (snap.map (fun c => c.line_id)).Nodup →
      (∀ e ∈ snap, 0 ≤ e.remaining) →
      ∀ e ∈ snap, totalDrawn e.line_id (matchGroupLoop t gs snap) ≤ e.remaining := by
  intro gs
  induction gs with
  | nil =>
    intro snap _ hpos e he
    simpa [matchGroupLoop, totalDrawn] using hpos e he
  | cons p rest ih =>
    intro snap hnd hpos e he
    rw [matchGroupLoop_cons]
    by_cases hr : (match_single t p.2 (sortedBy byRemaining
        (snap.filter (fun x => (1:ℚ)/100 < x.remaining)))).success = true
    · obtain ⟨hids, hpoint⟩ := snapshot_step t snap p.2 hnd hr
      set result := match_single t p.2 (sortedBy byRemaining
        (snap.filter (fun x => (1:ℚ)/100 < x.remaining))) with hres
      set snap' := applyAllocs snap result.allocations with hsnap'
      have hnd' : (snap'.map (fun c => c.line_id)).Nodup := by
        rw [hsnap', hids]; exact hnd
      have hpos' : ∀ e' ∈ snap', 0 ≤ e'.remaining := by
        intro e' he'
        rw [hsnap', applyAllocs_eq_map] at he'
        obtain ⟨e0, he0, rfl⟩ := List.mem_map.mp he'
        exact (hpoint e0 he0).2 (hpos e0 he0)
      have he' : entryUpdate result.allocations e ∈ snap' := by
        rw [hsnap', applyAllocs_eq_map]
        exact List.mem_map_of_mem (entryUpdate result.allocations) he
      have hbound := ih snap' hnd' hpos' (entryUpdate result.allocations e) he'
      rw [entryUpdate_line_id] at hbound
      have hrem := (hpoint e he).1
      have hdrawn : drawnBy e.line_id result = sumUsedFor e.line_id result.allocations := by
        simp [drawnBy, hr]
      simp only [totalDrawn, List.map_cons, List.sum_cons, if_pos hr, ← hsnap']
      rw [← totalDrawn, hdrawn]
      rw [hrem] at hbound
      linarith
    · simp only [totalDrawn, List.map_cons, List.sum_cons, if_neg hr]
      have hdrawn : drawnBy e.line_id (match_single t p.2 (sortedBy byRemaining
          (snap.filter (fun x => (1:ℚ)/100 < x.remaining)))) = 0 := by
        unfold drawnBy
        rw [if_neg hr]
      rw [hdrawn, ← totalDrawn]
      simpa using ih snap hnd hpos e he

/-- C6: within one `_match_group` call, for every credit line (with the
realistic hypotheses that candidate ids are pairwise distinct and
remainings nonnegative), the total `amount_used` drawn from that line
across all demands of the group never exceeds the line's remaining at the
start of the call. -/
theorem C6_no_double_spend (t : ℚ) (group_negatives : List (Nat × NegativeInvoice))
    (candidates : List BlueLineItem) (sort_strategy : String)
    (hnd : (candidates.map (fun c => c.line_id)).Nodup)
    (hpos : ∀ c ∈ candidates, 0 ≤ c.remaining) :
    ∀ c ∈ candidates,
      totalDrawn c.line_id (match_group t group_negatives candidates sort_strategy) ≤
        c.remaining := by
  intro c hc
  unfold match_group
  rw [dedup_eq_of_nodup candidates hnd]
  exact matchGroupLoop_bound t _ candidates hnd hpos c hc

/-- Witness for C6 at the spec's fifth concrete scenario: demands 100 and
50 sharing a key, one candidate of remaining 120, `amount_desc`. -/
theorem C6_no_double_spend_witness :
    totalDrawn 1 (match_group 5 [(0, ⟨1, 100, 6, 1, 1, 0⟩), (1, ⟨2, 50, 6, 1, 1, 0⟩)]
      [⟨1, 120, 6, 1, 1⟩] AMOUNT_DESC) ≤ 120 := by
  have h := C6_no_double_spend 5 [(0, ⟨1, 100, 6, 1, 1, 0⟩), (1, ⟨2, 50, 6, 1, 1, 0⟩)]
    [⟨1, 120, 6, 1, 1⟩] AMOUNT_DESC (by simp)
    (by intro c hc; rw [List.mem_singleton] at hc; subst hc; norm_num)
    ⟨1, 120, 6, 1, 1⟩ (List.mem_singleton_self _)
  exact h

/-- Folding list-append over a list of produced segments flattens them. -/
theorem foldl_append_flatten {α β : Type} (g : α → List β) :
    ∀ (l : List α) (init : List β),
      l.foldl (fun acc i => acc ++ g i) init = init ++ (l.map g).flatten := by
  intro l
  induction l with
  | nil => intro init; simp
  | cons a rest ih =>
    intro init
    show rest.foldl (fun acc i => acc ++ g i) (init ++ g a) = _
    rw [ih (init ++ g a)]
    simp

/-- The index-based slices `negatives[k*1000 : k*1000+1000]` taken by the
streaming loop enumerate exactly the consecutive 1000-chunks. -/
theorem chunks_slices_aux :
    ∀ (N : Nat) (l : List NegativeInvoice), l.length ≤ N →
      (List.range ((l.length + 999) / 1000)).map
        (fun k => (l.drop (k * 1000)).take 1000) = chunks1000 l := by
  intro N
  induction N with
  | zero =>
    intro l hl
    have : l = [] := List.eq_nil_of_length_eq_zero (Nat.le_zero.mp hl)
    subst this
    simp [chunks1000]
  | succ N ih =>
    intro l hl
    rcases l with _ | ⟨a, tl⟩
    · simp [chunks1000]
    · have hlen : tl.length + 1 ≤ N + 1 := by simpa using hl
      have hm : (((a :: tl).length + 999) / 1000) =
          ((((a :: tl).drop 1000).length + 999) / 1000) + 1 := by
        simp only [List.length_cons, List.length_drop]
        omega
      rw [hm, List.range_succ_eq_map]
      simp only [List.map_cons, List.map_map]
      have hhead : ((a :: tl).drop (0 * 1000)).take 1000 = (a :: tl).take 1000 := by
        norm_num
      have htail : ((List.range ((((a :: tl).drop 1000).length + 999) / 1000)).map
          ((fun k => ((a :: tl).drop (k * 1000)).take 1000) ∘ Nat.succ)) =
          chunks1000 ((a :: tl).drop 1000) := by
        rw [← ih ((a :: tl).drop 1000)
          (by simp only [List.length_drop, List.length_cons]; omega)]
        refine List.map_congr_left ?_
        intro k _
        show ((a :: tl).drop (Nat.succ k * 1000)).take 1000 =
          (((a :: tl).drop 1000).drop (k * 1000)).take 1000
        rw [List.drop_drop]
        congr 2
        omega
      rw [hhead, htail]
      simp [chunks1000]

/-- The slices of the streaming loop are the 1000-chunks. -/
theorem chunks_slices (l : List NegativeInvoice) :
    (List.range ((l.length + 999) / 1000)).map
      (fun k => (l.drop (k * 1000)).take 1000) = chunks1000 l :=
  chunks_slices_aux l.length l (le_refl _)

/-- C7: `match_batch` routes inputs below 10,000 demands to the standard
batch and inputs of at least 10,000 to the streaming path, whose result is
the concatenation, in input order, of the standard batch applied
independently to consecutive 1000-chunks — each chunk fetching its
candidates afresh from the (abstracted, answer-stable) provider. -/
theorem C7_streaming_refinement (t : ℚ) (negatives : List NegativeInvoice)
    (candidate_provider : GroupKey → List BlueLineItem) (sort_strategy : String) :
    match_batch t negatives candidate_provider sort_strategy =
      if negatives.length < 10000 then
        match_batch_standard t negatives candidate_provider sort_strategy
      else
        ((chunks1000 negatives).map
          (fun chunk => match_batch_standard t chunk candidate_provider sort_strategy)).flatten := by
  unfold match_batch
  by_cases h : 10000 ≤ negatives.length
  · rw [if_pos h, if_neg (by omega)]
    unfold match_batch_streaming
    rw [foldl_append_flatten]
    rw [List.nil_append, List.map_map]
    have hcount : (negatives.length + 1000 - 1) / 1000 = (negatives.length + 999) / 1000 := by
      omega
    have hmaps : (List.range ((negatives.length + 999) / 1000)).map
        ((fun i => match_batch_standard t ((negatives.drop i).take 1000)
          candidate_provider sort_strategy) ∘ (fun k => k * 1000)) =
        (chunks1000 negatives).map
          (fun chunk => match_batch_standard t chunk candidate_provider sort_strategy) := by
      rw [← chunks_slices negatives, List.map_map]
      rfl
    rw [hcount, hmaps]
  · rw [if_neg h, if_pos (by omega)]

/-- C2 (amended): the batched prefetch issues one round-trip whose plan
carries exactly the distinct grouping keys, but — because the engine passes
no per-key demand counts — every key's cap is the default limit 10000; the
dynamic cap `min(DYNAMIC_LIMIT_BASE * count, DYNAMIC_LIMIT_MAX)` applies
only when a `group_counts` dict carrying the key is supplied. -/
theorem C2_batch_prefetch_caps (groups : List (GroupKey × List (Nat × NegativeInvoice)))
    (limit : Nat) (group_counts : List (GroupKey × Nat)) (condition : GroupKey) (n : Nat)
    (hgc : lookupCount group_counts condition = some n) :
    prefetch_plan groups = (groups.map (fun g => g.1)).map (fun k => (k, 10000)) ∧
    actual_limit limit group_counts condition =
      min (DYNAMIC_LIMIT_BASE * n) DYNAMIC_LIMIT_MAX := by
  constructor
  · unfold prefetch_plan batch_query_plan
    exact List.map_congr_left (fun k _ => rfl)
  · unfold actual_limit
    rcases group_counts with _ | ⟨p, rest⟩
    · simp [lookupCount] at hgc
    · rw [hgc]

/-- Counterexample to C2 as stated: a batched prefetch for one key with one
demand plans the default cap 10000, not `min(200 × 1, 2000) = 200` — the
engine never passes the per-key demand counts that would engage the dynamic
cap. -/
theorem C2_counterexample_dynamic_cap_unused :
    prefetch_plan [(((6:Int), 1, 1), [(0, ⟨1, 100, 6, 1, 1, 0⟩)])] =
      [(((6:Int), 1, 1), 10000)] ∧
    min (DYNAMIC_LIMIT_BASE * 1) DYNAMIC_LIMIT_MAX = 200 ∧
    (10000 : Nat) ≠ 200 := by
  refine ⟨rfl, by norm_num [DYNAMIC_LIMIT_BASE, DYNAMIC_LIMIT_MAX], by norm_num⟩

/-- Witness for C2 at concrete inputs: one group with one demand on the
prefetch side; a supplied count of 3 for the dynamic-cap side. -/
theorem C2_batch_prefetch_caps_witness :
    prefetch_plan [(((6:Int), 1, 1), [(0, ⟨1, 100, 6, 1, 1, 0⟩)])] =
      [(((6:Int), 1, 1), 10000)] ∧
    actual_limit 777 [(((6:Int), 1, 1), 3)] ((6:Int), 1, 1) =
      min (DYNAMIC_LIMIT_BASE * 3) DYNAMIC_LIMIT_MAX := by
  have h := C2_batch_prefetch_caps [(((6:Int), 1, 1), [(0, ⟨1, 100, 6, 1, 1, 0⟩)])] 777
    [(((6:Int), 1, 1), 3)] ((6:Int), 1, 1) 3 rfl
  exact ⟨h.1.trans rfl, h.2⟩

/-- A `table_lookup` hit names an actual row of the table. -/
theorem table_lookup_some_mem (store : List (Nat × ℚ)) (K : Nat) (r : ℚ)
    (h : table_lookup store K = some r) : ∃ e ∈ store, e.1 = K ∧ e.2 = r := by
  unfold table_lookup at h
  cases hf : store.find? (fun e => e.1 = K) with
  | none => rw [hf] at h; simp at h
  | some e =>
    rw [hf] at h
    refine ⟨e, List.mem_of_find?_eq_some hf, ?_, ?_⟩
    · have := List.find?_some hf
      simpa using this
    · simpa using h

/-- Effect of one conditional update on a lookup: a present row's value is
decremented exactly when the row matches and covers the amount. -/
theorem table_lookup_update_some (L : Nat) (amt : ℚ) :
    ∀ (store : List (Nat × ℚ)) (K : Nat) (r : ℚ),
      table_lookup store K = some r →
      table_lookup (conditional_update store L amt).1 K =
        some (if K = L ∧ amt ≤ r then r - amt else r) := by
  intro store
  induction store with
  | nil => intro K r h; simp [table_lookup] at h
  | cons e rest ih =>
    intro K r h
    by_cases he : e.1 = K
    · have hr : e.2 = r := by
        unfold table_lookup at h
        rw [List.find?_cons_of_pos _ (by simpa using he)] at h
        simpa using h
      subst hr
      show table_lookup ((if e.1 = L ∧ amt ≤ e.2 then (e.1, e.2 - amt) else e) ::
        (conditional_update rest L amt).1) K = _
      by_cases hc : e.1 = L ∧ amt ≤ e.2
      · rw [if_pos hc]
        unfold table_lookup
        rw [List.find?_cons_of_pos _ (by simpa using he)]
        rw [if_pos ⟨he ▸ hc.1, hc.2⟩]
        rfl
      · rw [if_neg hc]
        unfold table_lookup
        rw [List.find?_cons_of_pos _ (by simpa using he)]
        rw [if_neg (fun hKL => hc ⟨he.trans hKL.1, hKL.2⟩)]
        rfl
    · have hkey : (if e.1 = L ∧ amt ≤ e.2 then (e.1, e.2 - amt) else e).1 = e.1 := by
        by_cases hc : e.1 = L ∧ amt ≤ e.2
        · rw [if_pos hc]
        · rw [if_neg hc]
      have h' : table_lookup rest K = some r := by
        unfold table_lookup at h ⊢
        rw [List.find?_cons_of_neg _ (by simpa using he)] at h
        exact h
      show table_lookup ((if e.1 = L ∧ amt ≤ e.2 then (e.1, e.2 - amt) else e) ::
        (conditional_update rest L amt).1) K = _
      unfold table_lookup
      rw [List.find?_cons_of_neg _ (by simp only [hkey, decide_eq_true_eq]; exact he)]
      exact ih K r h'

/-- A conditional update creates no row: absent keys stay absent. -/
theorem table_lookup_update_none (L : Nat) (amt : ℚ) (store : List (Nat × ℚ)) (K : Nat)
    (h : table_lookup store K = none) :
    table_lookup (conditional_update store L amt).1 K = none := by
  unfold table_lookup at h ⊢
  rw [Option.map_eq_none'] at h ⊢
  rw [List.find?_eq_none] at h ⊢
  intro x hx
  simp only [conditional_update] at hx
  obtain ⟨e, he, rfl⟩ := List.mem_map.mp hx
  have hkey : (if e.1 = L ∧ amt ≤ e.2 then (e.1, e.2 - amt) else e).1 = e.1 := by
    by_cases hc : e.1 = L ∧ amt ≤ e.2
    · rw [if_pos hc]
    · rw [if_neg hc]
  simp only [hkey, decide_eq_true_eq]
  simpa using h e he

/-- Absent keys stay absent across a whole update sequence. -/
theorem run_updates_lookup_none :
    ∀ (allocs : List (Nat × ℚ)) (store : List (Nat × ℚ)) (K : Nat),
      table_lookup store K = none →
      table_lookup (run_updates store allocs).1 K = none := by
  intro allocs
  induction allocs with
  | nil => intro store K h; exact h
  | cons p rest ih =>
    intro store K h
    show table_lookup (run_updates (conditional_update store p.1 p.2).1 rest).1 K = none
    exact ih _ K (table_lookup_update_none p.1 p.2 store K h)

/-- Remaining values never increase across an update sequence with
nonnegative amounts. -/
theorem run_updates_lookup_le :
    ∀ (allocs : List (Nat × ℚ)) (store : List (Nat × ℚ)) (K : Nat) (r : ℚ),
      (∀ p ∈ allocs, 0 ≤ p.2) →
      table_lookup store K = some r →
      ∃ r', table_lookup (run_updates store allocs).1 K = some r' ∧ r' ≤ r := by
  intro allocs
  induction allocs with
  | nil => intro store K r _ h; exact ⟨r, h, le_refl r⟩
  | cons p rest ih =>
    intro store K r hamt h
    have hstep := table_lookup_update_some p.1 p.2 store K r h
    have hle : (if K = p.1 ∧ p.2 ≤ r then r - p.2 else r) ≤ r := by
      by_cases hc : K = p.1 ∧ p.2 ≤ r
      · rw [if_pos hc]
        have := hamt p (List.mem_cons_self p rest)
        linarith
      · rw [if_neg hc]
    obtain ⟨r', hr', hler⟩ := ih (conditional_update store p.1 p.2).1 K _
      (fun q hq => hamt q (List.mem_cons_of_mem p hq)) hstep
    exact ⟨r', hr', le_trans hler hle⟩

/-- Every allocation whose conditional decrement affected no row is flagged
by the post-hoc conflict check against the final in-transaction state. -/
theorem conflicting_lines_subset_failed :
    ∀ (allocs : List (Nat × ℚ)) (store : List (Nat × ℚ)),
      (∀ p ∈ allocs, 0 ≤ p.2) →
      ∀ L ∈ conflicting_lines store allocs,
        L ∈ (allocs.filter (insufficient_check (run_updates store allocs).1)).map
          (fun p => p.1) := by
  intro allocs
  induction allocs with
  | nil => intro store _ L hL; simp [conflicting_lines] at hL
  | cons p rest ih =>
    intro store hamt L hL
    have hrun : (run_updates store (p :: rest)).1 =
        (run_updates (conditional_update store p.1 p.2).1 rest).1 := rfl
    show L ∈ ((p :: rest).filter
      (insufficient_check (run_updates store (p :: rest)).1)).map (fun p => p.1)
    simp only [conflicting_lines, List.mem_append] at hL
    rcases hL with hL | hL
    · by_cases hz : (conditional_update store p.1 p.2).2 = 0
      · rw [if_pos hz, List.mem_singleton] at hL
        subst hL
        have hallsmall : ∀ e ∈ store, e.1 = p.1 → e.2 < p.2 := by
          intro e hes hek
          have hzc := List.countP_eq_zero.mp hz e hes
          simp only [decide_eq_true_eq, not_and, not_le] at hzc
          exact hzc hek
        have hcheck : insufficient_check (run_updates store (p :: rest)).1 p = true := by
          rw [hrun]
          cases hfind : table_lookup store p.1 with
          | none =>
            have h2 := run_updates_lookup_none rest _ p.1
              (table_lookup_update_none p.1 p.2 store p.1 hfind)
            unfold insufficient_check
            rw [h2]
          | some r =>
            obtain ⟨e, hes, hek, hev⟩ := table_lookup_some_mem store p.1 r hfind
            have hrlt : r < p.2 := hev ▸ hallsmall e hes hek
            have hstep := table_lookup_update_some p.1 p.2 store p.1 r hfind
            rw [if_neg (fun hc => absurd hc.2 (not_le.mpr hrlt))] at hstep
            obtain ⟨r', hr', hler⟩ := run_updates_lookup_le rest _ p.1 r
              (fun q hq => hamt q (List.mem_cons_of_mem p hq)) hstep
            unfold insufficient_check
            rw [hr']
            simp only [decide_eq_true_eq]
            linarith
        exact List.mem_map_of_mem (fun p => p.1)
          ((List.mem_filter).mpr ⟨List.mem_cons_self p rest, hcheck⟩)
      · rw [if_neg hz] at hL
        simp at hL
    · have htail := ih (conditional_update store p.1 p.2).1
        (fun q hq => hamt q (List.mem_cons_of_mem p hq)) L hL
      obtain ⟨q, hq, rfl⟩ := List.mem_map.mp htail
      rw [List.mem_filter] at hq
      refine List.mem_map.mpr ⟨q, ?_, rfl⟩
      rw [List.mem_filter]
      exact ⟨List.mem_cons_of_mem p hq.1, by rw [hrun]; exact hq.2⟩

/-- The audit rows and the allocation pairs are collected in one pass:
their counts agree. -/
theorem collect_records_length (batch_id : String) (results : List MatchResult) :
    (collect_match_records batch_id results).length =
      (collect_allocations results).length := by
  unfold collect_allocations collect_match_records
  rw [List.length_flatMap, List.length_flatMap]
  congr 1
  exact List.map_congr_left (fun r _ => by simp)

/-- Unfolding: `save_match_results` with no successful allocations. -/
theorem save_match_results_empty (store : List (Nat × ℚ))
    (audit : List (String × Nat × Nat × ℚ)) (results : List MatchResult)
    (batch_id : String) (h : collect_allocations results = []) :
    save_match_results store audit results batch_id =
      ⟨store, audit, true, []⟩ := by
  simp only [save_match_results]
  rw [if_pos h]

/-- Unfolding: `save_match_results` when every conditional decrement
applies. -/
theorem save_match_results_ok (store : List (Nat × ℚ))
    (audit : List (String × Nat × Nat × ℚ)) (results : List MatchResult)
    (batch_id : String) (h : ¬ collect_allocations results = [])
    (hc : (run_updates store (collect_allocations results)).2 =
      (collect_allocations results).length) :
    save_match_results store audit results batch_id =
      ⟨(run_updates store (collect_allocations results)).1,
       audit ++ collect_match_records batch_id results, true, []⟩ := by
  simp only [save_match_results]
  rw [if_neg h, if_pos hc]

/-- Unfolding: `save_match_results` when some conditional decrement did not
apply — rollback with the post-hoc failed-lines list. -/
theorem save_match_results_conflict (store : List (Nat × ℚ))
    (audit : List (String × Nat × Nat × ℚ)) (results : List MatchResult)
    (batch_id : String) (h : ¬ collect_allocations results = [])
    (hc : ¬ (run_updates store (collect_allocations results)).2 =
      (collect_allocations results).length) :
    save_match_results store audit results batch_id =
      ⟨store, audit, false,
       ((collect_allocations results).filter
         (insufficient_check (run_updates store (collect_allocations results)).1)).map
           (fun p => p.1)⟩ := by
  simp only [save_match_results]
  rw [if_neg h, if_neg hc]

/-- C3 (amended): the commit is all-or-nothing — on success every
conditional decrement applied, the table is the fully updated one and the
audit rows are appended in the same transaction; on failure the table and
audit are rolled back untouched, and the reported failed lines include
every allocation whose conditional decrement did not apply.  (The reported
list is computed against the partially-updated in-transaction state, so it
can also name lines that did not change underneath the batch; see the
counterexample.) -/
theorem C3_commit_atomicity (store : List (Nat × ℚ))
    (audit : List (String × Nat × Nat × ℚ)) (results : List MatchResult)
    (batch_id : String)
    (hamt : ∀ p ∈ collect_allocations results, 0 ≤ p.2) :
    ((save_match_results store audit results batch_id).ok = true →
      (save_match_results store audit results batch_id).blue_lines =
        (run_updates store (collect_allocations results)).1 ∧
      (save_match_results store audit results batch_id).audit =
        audit ++ collect_match_records batch_id results ∧
      (run_updates store (collect_allocations results)).2 =
        (collect_allocations results).length) ∧
    ((save_match_results store audit results batch_id).ok = false →
      (save_match_results store audit results batch_id).blue_lines = store ∧
      (save_match_results store audit results batch_id).audit = audit ∧
      ∀ L ∈ conflicting_lines store (collect_allocations results),
        L ∈ (save_match_results store audit results batch_id).failed_lines) := by
  by_cases hempty : collect_allocations results = []
  · rw [save_match_results_empty store audit results batch_id hempty]
    have hrec : collect_match_records batch_id results = [] := by
      rw [← List.length_eq_zero, collect_records_length, hempty]
      rfl
    constructor
    · intro _
      refine ⟨by rw [hempty]; rfl, by rw [hrec]; simp, by rw [hempty]; rfl⟩
    · intro hfalse
      simp at hfalse
  · by_cases hcount : (run_updates store (collect_allocations results)).2 =
        (collect_allocations results).length
    · rw [save_match_results_ok store audit results batch_id hempty hcount]
      constructor
      · intro _
        exact ⟨rfl, rfl, hcount⟩
      · intro hfalse
        simp at hfalse
    · rw [save_match_results_conflict store audit results batch_id hempty hcount]
      constructor
      · intro htrue
        simp at htrue
      · intro _
        exact ⟨rfl, rfl, fun L hL =>
          conflicting_lines_subset_failed (collect_allocations results) store hamt L hL⟩

/-- Counterexample to the "identifies exactly" part of C3: line 1's
decrement applies (draining it to 0 inside the aborted transaction) and
only line 2's decrement fails, yet the failure reports both lines — the
post-hoc check reads the partially-updated in-transaction state. -/
theorem C3_counterexample_overreported_conflicts :
    (save_match_results [(1, 100), (2, 10)] []
      [⟨101, true, [⟨1, 100, 0⟩], 100, 0, none⟩,
       ⟨102, true, [⟨2, 20, 30⟩], 20, 0, none⟩] BATCH_W).ok = false ∧
    (save_match_results [(1, 100), (2, 10)] []
      [⟨101, true, [⟨1, 100, 0⟩], 100, 0, none⟩,
       ⟨102, true, [⟨2, 20, 30⟩], 20, 0, none⟩] BATCH_W).failed_lines = [1, 2] ∧
    conflicting_lines [(1, 100), (2, 10)]
      (collect_allocations
        [⟨101, true, [⟨1, 100, 0⟩], 100, 0, none⟩,
         ⟨102, true, [⟨2, 20, 30⟩], 20, 0, none⟩]) = [2] ∧
    (save_match_results [(1, 100), (2, 10)] []
      [⟨101, true, [⟨1, 100, 0⟩], 100, 0, none⟩,
       ⟨102, true, [⟨2, 20, 30⟩], 20, 0, none⟩] BATCH_W).blue_lines =
      [(1, 100), (2, 10)] := by
  refine ⟨?_, ?_, ?_, ?_⟩ <;>
    norm_num [save_match_results, collect_allocations, collect_match_records,
      run_updates, conditional_update, conflicting_lines, insufficient_check,
      table_lookup, List.filter, List.flatMap, List.countP, List.countP.go,
      List.find?, List.cons_ne_nil]

/-- Witness for C3 at a concrete success: one allocation of 40 against a
line with remaining 100 commits, updating the table and appending the
audit row. -/
theorem C3_commit_atomicity_witness :
    (save_match_results [(1, 100)] []
      [⟨101, true, [⟨1, 40, 60⟩], 40, 0, none⟩] BATCH_W).ok = true ∧
    (save_match_results [(1, 100)] []
      [⟨101, true, [⟨1, 40, 60⟩], 40, 0, none⟩] BATCH_W).blue_lines =
      (run_updates [(1, 100)]
        (collect_allocations [⟨101, true, [⟨1, 40, 60⟩], 40, 0, none⟩])).1 ∧
    (save_match_results [(1, 100)] []
      [⟨101, true, [⟨1, 40, 60⟩], 40, 0, none⟩] BATCH_W).audit =
      [] ++ collect_match_records BATCH_W [⟨101, true, [⟨1, 40, 60⟩], 40, 0, none⟩] := by
  have hok : (save_match_results [(1, 100)] []
      [⟨101, true, [⟨1, 40, 60⟩], 40, 0, none⟩] BATCH_W).ok = true := by
    norm_num [save_match_results, collect_allocations, run_updates,
      conditional_update, List.filter, List.flatMap, List.countP, List.countP.go]
  have h := C3_commit_atomicity [(1, 100)] []
    [⟨101, true, [⟨1, 40, 60⟩], 40, 0, none⟩] BATCH_W
    (by
      intro p hp
      simp [collect_allocations, List.filter, List.flatMap] at hp
      rw [hp]
      norm_num)
  obtain ⟨h1, h2, -⟩ := h.1 hok
  exact ⟨hok, h1, h2⟩

/-- C1 evaluation: two demands (amounts 50 and 100, invoice ids 1 and 2)
sharing one key, one candidate with remaining 200, default strategy
`amount_desc`.  `_match_group` returns the results in sorted order
(invoice 2 first), but `_match_batch_standard` zips them against the
*unsorted* group list, so the result computed for invoice 2 lands at
index 0 and the one for invoice 1 at index 1 — the output is not
index-aligned with the input. -/
theorem C1_result_misalignment :
    ((match_batch_standard 5 [⟨1, 50, 6, 1, 1, 0⟩, ⟨2, 100, 6, 1, 1, 0⟩]
        (fun _ => [⟨10, 200, 6, 1, 1⟩]) AMOUNT_DESC).map
      (Option.map (fun r => r.negative_invoice_id))) = [some 2, some 1] ∧
    (([⟨1, 50, 6, 1, 1, 0⟩, ⟨2, 100, 6, 1, 1, 0⟩] :
      List NegativeInvoice).map (fun n => n.invoice_id)) = [1, 2] := by
  constructor
  · norm_num [match_batch_standard, group_negatives_by_conditions, groupStep,
      negKey, match_group, matchGroupLoop, sortedBy, insertSorted, groupLt,
      get_sort_key, keyLt, byRemaining, dedupByLineId, dedupStep, applyAllocs,
      match_single, greedyLoop, fragIncr, List.filter, List.enum,
      List.enumFrom, List.set, List.zip, List.zipWith, List.replicate,
      AMOUNT_DESC, AMOUNT_ASC, PRIORITY_DESC]
  · simp
